import Mathlib

/-!
A shallow embedding of the `GameModFHEPlatform` contract (the
batch-lifecycle and verified-decryption core) together with proofs of the
behavioural properties stated in its specification.

Modelling conventions:
* `address`, `uint256`, `bytes32` and `euint32` ciphertext handles are all
  modelled as `Nat`; handle `0` is the null/default `euint32` handle.
* The external FHE collaborator (`FHE.add`, `FHE.asEuint32`,
  `FHE.isInitialized`, `FHE.toBytes32`, `FHE.checkSignatures`) and the
  `keccak256`-based digest are parameters of the model, collected in `Env`;
  `concreteEnv` instantiates them with executable injective encodings.
* Each external entry point becomes a function
  `ContractState → args → Except Err ContractState`; a revert is
  `Except.error`, and the transactional (all-or-nothing) execution
  semantics is captured by `execOp`, which keeps the pre-state whenever
  the entry point reverts.
* Modifiers run in their declaration order with the original caller as
  `msg.sender`; the internal calls `closeBatch(batchId)` / `openBatch()`
  inside `submitMod` therefore execute those functions' `onlyOwner`
  checks against the submitting caller.
* `FHE.requestDecryption` obtains fresh request ids from the external
  oracle's monotone counter, modelled by the `nextRequestId` field.
-/

namespace GameModFHE

/-- Custom errors declared by the contract, plus `Reverted` for
`require` / `revert` with a string message. -/
inductive Err where
  | NotOwner
  | NotProvider
  | Paused
  | RateLimited
  | BatchClosed
  | BatchFull
  | InvalidBatch
  | StaleWrite
  | InvalidState
  | ReplayAttempt
  | Reverted (msg : String)
deriving DecidableEq, Repr

/-- Events declared by the contract. -/
inductive Event where
  | ProviderAdded (provider : Nat)
  | ProviderRemoved (provider : Nat)
  | Paused
  | Unpaused
  | CooldownUpdated (newCooldown : Nat)
  | BatchOpened (batchId : Nat)
  | BatchClosed (batchId : Nat)
  | ModSubmission (submitter batchId cId : Nat)
  | DecryptionRequested (requestId batchId stateHash : Nat)
  | DecryptionComplete (requestId batchId aggregateScore : Nat)
  | BatchAggregateCommitted (batchId encryptedAggregate : Nat)
deriving DecidableEq, Repr

/-- The `Batch` struct. -/
structure Batch where
  isActive : Bool
  submissionCount : Nat
  encryptedAggregate : Nat
deriving DecidableEq, Repr

/-- The `DecryptionContext` struct. -/
structure DecryptionContext where
  batchId : Nat
  stateHash : Nat
  processed : Bool
  requester : Nat
deriving DecidableEq, Repr

/-- Default (zero-valued) `Batch` storage slot. -/
def emptyBatch : Batch :=
  { isActive := false, submissionCount := 0, encryptedAggregate := 0 }

/-- Default (zero-valued) `DecryptionContext` storage slot. -/
def emptyContext : DecryptionContext :=
  { batchId := 0, stateHash := 0, processed := false, requester := 0 }

/-- The external collaborators: the FHE library operations used by the
contract, the signature verifier of the decryption oracle, and the
`keccak256 ∘ abi.encode` digest over a ciphertext-handle list paired with
the contract's own address. -/
structure Env where
  fheAdd : Nat → Nat → Nat
  fheAsEuint32 : Nat → Nat
  fheIsInit : Nat → Bool
  fheToBytes32 : Nat → Nat
  checkSignatures : Nat → Nat → Nat → Bool
  keccak256enc : List Nat → Nat → Nat
  selfAddr : Nat

/-- Pointwise update of a Solidity storage mapping. -/
def updFn {α : Type} (f : Nat → α) (k : Nat) (v : α) : Nat → α :=
  fun i => if i = k then v else f i

/-- Contract storage, together with the external oracle's request-id
counter (`nextRequestId`) and the emitted event log. -/
structure ContractState where
  owner : Nat
  paused : Bool
  cooldownSeconds : Nat
  currentBatchId : Nat
  modelVersion : Nat
  isProvider : Nat → Bool
  lastSubmissionAt : Nat → Nat
  lastDecryptionRequestAt : Nat → Nat
  decryptionContexts : Nat → DecryptionContext
  batches : Nat → Batch
  nextRequestId : Nat
  log : List Event

/-- `_hashCiphertexts`: `keccak256(abi.encode(cts, address(this)))`. -/
def hashCiphertexts (env : Env) (cts : List Nat) : Nat :=
  env.keccak256enc cts env.selfAddr

/-- `_openBatch`: requires `batchId == currentBatchId`, then installs a
fresh active batch with zero counter and encrypted-zero aggregate. -/
def openBatchInternal (env : Env) (s : ContractState) (batchId : Nat) :
    Except Err ContractState :=
  if batchId ≠ s.currentBatchId then .error (.Reverted "Invalid batch ID")
  else .ok { s with
    batches := updFn s.batches batchId
      { isActive := true, submissionCount := 0,
        encryptedAggregate := env.fheAsEuint32 0 },
    log := s.log ++ [Event.BatchOpened batchId] }

/-- The constructor: caller becomes owner and provider, cooldown 30,
model version 1, batch 1 opened. -/
def deploy (env : Env) (sender : Nat) : Except Err ContractState :=
  let s : ContractState :=
    { owner := sender
      paused := false
      cooldownSeconds := 30
      currentBatchId := 1
      modelVersion := 1
      isProvider := updFn (fun _ => false) sender true
      lastSubmissionAt := fun _ => 0
      lastDecryptionRequestAt := fun _ => 0
      decryptionContexts := fun _ => emptyContext
      batches := fun _ => emptyBatch
      nextRequestId := 0
      log := [] }
  openBatchInternal env s 1

/-- The state produced by a successful `deploy` (the constructor cannot
revert); see `deploy_eq`. -/
def initState (env : Env) (sender : Nat) : ContractState :=
  { owner := sender
    paused := false
    cooldownSeconds := 30
    currentBatchId := 1
    modelVersion := 1
    isProvider := updFn (fun _ => false) sender true
    lastSubmissionAt := fun _ => 0
    lastDecryptionRequestAt := fun _ => 0
    decryptionContexts := fun _ => emptyContext
    batches := updFn (fun _ => emptyBatch) 1
      { isActive := true, submissionCount := 0,
        encryptedAggregate := env.fheAsEuint32 0 }
    nextRequestId := 0
    log := [Event.BatchOpened 1] }

/-- `addProvider`: owner-only. -/
def addProvider (s : ContractState) (sender provider : Nat) :
    Except Err ContractState :=
  if sender ≠ s.owner then .error .NotOwner
  else .ok { s with
    isProvider := updFn s.isProvider provider true,
    log := s.log ++ [Event.ProviderAdded provider] }

/-- `removeProvider`: owner-only. -/
def removeProvider (s : ContractState) (sender provider : Nat) :
    Except Err ContractState :=
  if sender ≠ s.owner then .error .NotOwner
  else .ok { s with
    isProvider := updFn s.isProvider provider false,
    log := s.log ++ [Event.ProviderRemoved provider] }

/-- `pause`: owner-only. -/
def pause (s : ContractState) (sender : Nat) : Except Err ContractState :=
  if sender ≠ s.owner then .error .NotOwner
  else .ok { s with paused := true, log := s.log ++ [Event.Paused] }

/-- `unpause`: owner-only. -/
def unpause (s : ContractState) (sender : Nat) : Except Err ContractState :=
  if sender ≠ s.owner then .error .NotOwner
  else .ok { s with paused := false, log := s.log ++ [Event.Unpaused] }

/-- `setCooldown`: owner-only. -/
def setCooldown (s : ContractState) (sender newCooldown : Nat) :
    Except Err ContractState :=
  if sender ≠ s.owner then .error .NotOwner
  else .ok { s with
    cooldownSeconds := newCooldown,
    log := s.log ++ [Event.CooldownUpdated newCooldown] }

/-- `openBatch`: owner-only; increments `currentBatchId` and opens it.
It does not close the previously current batch. -/
def openBatch (env : Env) (s : ContractState) (sender : Nat) :
    Except Err ContractState :=
  if sender ≠ s.owner then .error .NotOwner
  else
    openBatchInternal env { s with currentBatchId := s.currentBatchId + 1 }
      (s.currentBatchId + 1)

/-- `closeBatch`: modifiers `onlyOwner` then `batchActive(batchId)`. -/
def closeBatch (s : ContractState) (sender batchId : Nat) :
    Except Err ContractState :=
  if sender ≠ s.owner then .error .NotOwner
  else if (s.batches batchId).isActive = false then .error .BatchClosed
  else .ok { s with
    batches := updFn s.batches batchId
      { (s.batches batchId) with isActive := false },
    log := s.log ++ [Event.BatchClosed batchId] }

/-- `submitMod`: modifiers `onlyProvider`, `whenNotPaused`,
`batchActive(batchId)`, `rateLimited(msg.sender, lastSubmissionAt, ...)`
in that order, then the body: require the score handle initialized,
homomorphically accumulate, bump the counter, emit the submission event,
and on reaching 10 submissions commit the aggregate, close the batch and
open the next one (via the owner-gated `closeBatch` / `openBatch`). -/
def submitMod (env : Env) (s : ContractState)
    (sender now batchId encryptedScore : Nat) : Except Err ContractState :=
  if s.isProvider sender = false then .error .NotProvider
  else if s.paused = true then .error .Paused
  else if (s.batches batchId).isActive = false then .error .BatchClosed
  else if now < s.lastSubmissionAt sender + s.cooldownSeconds then
    .error .RateLimited
  else
    let s1 := { s with lastSubmissionAt := updFn s.lastSubmissionAt sender now }
    if env.fheIsInit encryptedScore = false then
      .error (.Reverted "Uninitialized: encryptedScore")
    else
      let batch := s1.batches batchId
      let newAgg := env.fheAdd batch.encryptedAggregate encryptedScore
      let newCount := batch.submissionCount + 1
      let s2 := { s1 with
        batches := updFn s1.batches batchId
          { batch with
            encryptedAggregate := newAgg
            submissionCount := newCount } }
      let cId := env.fheToBytes32 encryptedScore
      let s3 := { s2 with
        log := s2.log ++ [Event.ModSubmission sender batchId cId] }
      if 10 ≤ newCount then
        let s4 := { s3 with
          log := s3.log ++ [Event.BatchAggregateCommitted batchId newAgg] }
        match closeBatch s4 sender batchId with
        | .error e => .error e
        | .ok s5 => openBatch env s5 sender
      else .ok s3

/-- `requestBatchDecryption`: modifiers `onlyProvider`, `whenNotPaused`,
`rateLimited(msg.sender, lastDecryptionRequestAt, ...)`, then the body:
batch must be active, digest of the current aggregate handle is stored
together with the request context under the oracle's fresh request id. -/
def requestBatchDecryption (env : Env) (s : ContractState)
    (sender now batchId : Nat) : Except Err ContractState :=
  if s.isProvider sender = false then .error .NotProvider
  else if s.paused = true then .error .Paused
  else if now < s.lastDecryptionRequestAt sender + s.cooldownSeconds then
    .error .RateLimited
  else
    let s1 := { s with
      lastDecryptionRequestAt := updFn s.lastDecryptionRequestAt sender now }
    let batch := s1.batches batchId
    if batch.isActive = false then .error .BatchClosed
    else
      let cts := [env.fheToBytes32 batch.encryptedAggregate]
      let stateHash := hashCiphertexts env cts
      let requestId := s1.nextRequestId
      .ok { s1 with
        nextRequestId := s1.nextRequestId + 1,
        decryptionContexts := updFn s1.decryptionContexts requestId
          { batchId := batchId, stateHash := stateHash,
            processed := false, requester := sender },
        log := s1.log ++ [Event.DecryptionRequested requestId batchId stateHash] }

/-- `onBatchDecryptionComplete`: public callback with no caller
restriction. Replay check, digest re-check against the current aggregate,
signature verification, then mark processed and emit the cleartext
aggregate (`cleartexts` is modelled as the decoded `uint256`). -/
def onBatchDecryptionComplete (env : Env) (s : ContractState)
    (requestId cleartexts proof : Nat) : Except Err ContractState :=
  let context := s.decryptionContexts requestId
  if context.processed = true then .error .ReplayAttempt
  else
    let batch := s.batches context.batchId
    let cts := [env.fheToBytes32 batch.encryptedAggregate]
    let currentStateHash := hashCiphertexts env cts
    if currentStateHash ≠ context.stateHash then .error .InvalidState
    else if env.checkSignatures requestId cleartexts proof = false then
      .error (.Reverted "invalid KMS signatures")
    else
      let aggregateScore := cleartexts
      .ok { s with
        decryptionContexts := updFn s.decryptionContexts requestId
          { context with processed := true },
        log := s.log ++
          [Event.DecryptionComplete requestId context.batchId aggregateScore] }

/-- One external call: every entry point of the contract, with its caller
and (where the contract reads the clock) the block timestamp. -/
inductive Op where
  | addProvider (sender provider : Nat)
  | removeProvider (sender provider : Nat)
  | pause (sender : Nat)
  | unpause (sender : Nat)
  | setCooldown (sender newCooldown : Nat)
  | openBatch (sender : Nat)
  | closeBatch (sender batchId : Nat)
  | submitMod (sender now batchId encryptedScore : Nat)
  | requestBatchDecryption (sender now batchId : Nat)
  | onBatchDecryptionComplete (requestId cleartexts proof : Nat)
deriving DecidableEq, Repr

/-- Dispatch an external call to the corresponding entry point. -/
def runOp (env : Env) (s : ContractState) : Op → Except Err ContractState
  | .addProvider sender p => addProvider s sender p
  | .removeProvider sender p => removeProvider s sender p
  | .pause sender => pause s sender
  | .unpause sender => unpause s sender
  | .setCooldown sender c => setCooldown s sender c
  | .openBatch sender => openBatch env s sender
  | .closeBatch sender b => closeBatch s sender b
  | .submitMod sender now b x => submitMod env s sender now b x
  | .requestBatchDecryption sender now b => requestBatchDecryption env s sender now b
  | .onBatchDecryptionComplete r c p => onBatchDecryptionComplete env s r c p

/-- Transactional execution: a reverting call leaves the state (storage,
oracle counter and log) exactly as it was. -/
def execOp (env : Env) (s : ContractState) (op : Op) : ContractState :=
  match runOp env s op with
  | .ok s' => s'
  | .error _ => s

/-- Execute a sequence of external calls. -/
def execOps (env : Env) (s : ContractState) (ops : List Op) : ContractState :=
  ops.foldl (execOp env) s

/-- States reachable from deployment by some sequence of external calls. -/
def Reachable (env : Env) (s : ContractState) : Prop :=
  ∃ deployer ops, s = execOps env (initState env deployer) ops

/-- An executable instantiation of the external collaborators: handles
are combined by an injective pairing (so every `FHE.add` yields a fresh
nonzero handle), handle `0` is the sole uninitialized handle, the digest
is an injective nonzero encoding, and all oracle signatures verify. -/
def concreteEnv : Env :=
  { fheAdd := fun a b => Nat.pair a b + 1
    fheAsEuint32 := fun v => v + 1
    fheIsInit := fun h => h != 0
    fheToBytes32 := fun h => h
    checkSignatures := fun _ _ _ => true
    keccak256enc := fun cts addr => Nat.pair (cts.foldr Nat.pair 0) addr + 1
    selfAddr := 7 }

/-- At most one batch is active. -/
def AtMostOneActive (s : ContractState) : Prop :=
  ∀ i j, (s.batches i).isActive = true → (s.batches j).isActive = true → i = j

/-- Batch-id discipline: the current id is at least 1 and every active
batch has an id between 1 and the current id. -/
def ActiveIdsBounded (s : ContractState) : Prop :=
  1 ≤ s.currentBatchId ∧
    ∀ i, (s.batches i).isActive = true → 1 ≤ i ∧ i ≤ s.currentBatchId

/-- Request ids at or above the oracle counter still hold the default
(zero) context slot. -/
def CtxFresh (s : ContractState) : Prop :=
  ∀ r, s.nextRequestId ≤ r → s.decryptionContexts r = emptyContext

/-- Request `r` has been processed and its id was allocated by the
oracle counter. -/
def ProcessedStable (r : Nat) (s : ContractState) : Prop :=
  (s.decryptionContexts r).processed = true ∧ r < s.nextRequestId

/-- Homomorphic sum of a list of scores, starting from encrypted zero. -/
def homSum (env : Env) (xs : List Nat) : Nat :=
  xs.foldl env.fheAdd (env.fheAsEuint32 0)

/-- Run a sequence of submissions `(sender, now, score)` into batch `b`,
requiring every one of them to be accepted. -/
def runSubs (env : Env) (b : Nat) :
    ContractState → List (Nat × Nat × Nat) → Option ContractState
  | s, [] => some s
  | s, (sender, now, x) :: rest =>
    match submitMod env s sender now b x with
    | .ok s' => runSubs env b s' rest
    | .error _ => none

/-- The scores of a submission sequence. -/
def subScores (subs : List (Nat × Nat × Nat)) : List Nat :=
  subs.map (fun t => t.2.2)

/-- An instantiation of the collaborators whose homomorphic addition is
plain commutative/associative addition with `0` encrypting zero; every
handle counts as initialized. -/
def natAddEnv : Env :=
  { fheAdd := Nat.add
    fheAsEuint32 := fun v => v
    fheIsInit := fun _ => true
    fheToBytes32 := fun h => h
    checkSignatures := fun _ _ _ => true
    keccak256enc := fun cts addr => Nat.pair (cts.foldr Nat.pair 0) addr + 1
    selfAddr := 0 }

/-- A deployment state whose batch 1 already holds nine accepted
submissions (with some nonzero aggregate handle), used to exercise the
rollover path on the tenth. -/
def c1State : ContractState :=
  { initState concreteEnv 0 with
    batches := updFn (initState concreteEnv 0).batches 1
      { isActive := true, submissionCount := 9, encryptedAggregate := 1 } }

/-- The state reached by two accepted submissions of scores 3 and 4 into
batch 1 under `natAddEnv`. -/
def c8State : ContractState :=
  (runSubs natAddEnv 1 (initState natAddEnv 0)
    [(0, 50, 3), (0, 100, 4)]).getD (initState natAddEnv 0)

/-- The constructor never reverts and produces `initState`. -/
theorem deploy_eq (env : Env) (sender : Nat) :
    deploy env sender = .ok (initState env sender) := rfl

@[simp] theorem updFn_self {α : Type} (f : Nat → α) (k : Nat) (v : α) :
    updFn f k v k = v := by simp [updFn]

@[simp] theorem updFn_ne {α : Type} (f : Nat → α) (k : Nat) (v : α)
    (i : Nat) (h : i ≠ k) : updFn f k v i = f i := by simp [updFn, h]

/-- Inversion of a successful `closeBatch`. -/
theorem closeBatch_ok (s : ContractState) (sender batchId : Nat)
    (s' : ContractState) (h : closeBatch s sender batchId = .ok s') :
    sender = s.owner ∧ (s.batches batchId).isActive = true ∧
    s' = { s with
      batches := updFn s.batches batchId
        { (s.batches batchId) with isActive := false },
      log := s.log ++ [Event.BatchClosed batchId] } := by
  unfold closeBatch at h
  split at h
  · simp at h
  · split at h
    · simp at h
    · rename_i hown hact
      refine ⟨by omega, ?_, ?_⟩
      · revert hact; cases (s.batches batchId).isActive <;> simp
      · simpa using h.symm

/-- Inversion of a successful `openBatch`. -/
theorem openBatch_ok (env : Env) (s : ContractState) (sender : Nat)
    (s' : ContractState) (h : openBatch env s sender = .ok s') :
    sender = s.owner ∧
    s' = { s with
      currentBatchId := s.currentBatchId + 1,
      batches := updFn s.batches (s.currentBatchId + 1)
        { isActive := true, submissionCount := 0,
          encryptedAggregate := env.fheAsEuint32 0 },
      log := s.log ++ [Event.BatchOpened (s.currentBatchId + 1)] } := by
  unfold openBatch openBatchInternal at h
  split at h
  · simp at h
  · rename_i hown
    simp at h
    refine ⟨by omega, h.symm⟩

/-- Inversion of a successful `submitMod`: every precondition held and
the result is either the plain accumulation state or, when the counter
reached 10, the rolled-over state (which also requires the caller to be
the owner, since the internal `closeBatch` and `openBatch` calls are
owner-gated). -/
theorem submitMod_ok (env : Env) (s : ContractState)
    (sender now batchId x : Nat) (s' : ContractState)
    (h : submitMod env s sender now batchId x = .ok s') :
    s.isProvider sender = true ∧ s.paused = false ∧
    (s.batches batchId).isActive = true ∧
    s.lastSubmissionAt sender + s.cooldownSeconds ≤ now ∧
    env.fheIsInit x = true ∧
    (((s.batches batchId).submissionCount + 1 < 10 ∧
      s' = { s with
        lastSubmissionAt := updFn s.lastSubmissionAt sender now,
        batches := updFn s.batches batchId
          { (s.batches batchId) with
            encryptedAggregate :=
              env.fheAdd (s.batches batchId).encryptedAggregate x
            submissionCount := (s.batches batchId).submissionCount + 1 },
        log := s.log ++
          [Event.ModSubmission sender batchId (env.fheToBytes32 x)] }) ∨
     (10 ≤ (s.batches batchId).submissionCount + 1 ∧ sender = s.owner ∧
      s' = { s with
        lastSubmissionAt := updFn s.lastSubmissionAt sender now,
        currentBatchId := s.currentBatchId + 1,
        batches := updFn (updFn (updFn s.batches batchId
          { (s.batches batchId) with
            encryptedAggregate :=
              env.fheAdd (s.batches batchId).encryptedAggregate x
            submissionCount := (s.batches batchId).submissionCount + 1 })
          batchId
          { (s.batches batchId) with
            encryptedAggregate :=
              env.fheAdd (s.batches batchId).encryptedAggregate x
            submissionCount := (s.batches batchId).submissionCount + 1
            isActive := false })
          (s.currentBatchId + 1)
          { isActive := true, submissionCount := 0,
            encryptedAggregate := env.fheAsEuint32 0 },
        log := s.log ++
          [Event.ModSubmission sender batchId (env.fheToBytes32 x),
           Event.BatchAggregateCommitted batchId
             (env.fheAdd (s.batches batchId).encryptedAggregate x),
           Event.BatchClosed batchId,
           Event.BatchOpened (s.currentBatchId + 1)] })) := by
  unfold submitMod at h
  split at h
  · simp at h
  split at h
  · simp at h
  split at h
  · simp at h
  split at h
  · simp at h
  rename_i h1 h2 h3 h4
  dsimp only at h
  split at h
  · simp at h
  rename_i h5
  have hprov : s.isProvider sender = true := by
    revert h1; cases s.isProvider sender <;> simp
  have hpause : s.paused = false := by
    revert h2; cases s.paused <;> simp
  have hact : (s.batches batchId).isActive = true := by
    revert h3; cases (s.batches batchId).isActive <;> simp
  have hinit : env.fheIsInit x = true := by
    revert h5; cases env.fheIsInit x <;> simp
  refine ⟨hprov, hpause, hact, by omega, hinit, ?_⟩
  by_cases hfull : 10 ≤ (s.batches batchId).submissionCount + 1
  · right
    rw [if_pos hfull] at h
    split at h
    · simp at h
    rename_i s5 hclose
    obtain ⟨hown, -, hs5⟩ := closeBatch_ok _ _ _ _ hclose
    subst hs5
    obtain ⟨-, hs'⟩ := openBatch_ok _ _ _ _ h
    subst hs'
    refine ⟨hfull, hown, ?_⟩
    simp [updFn_self, hact]
  · left
    rw [if_neg hfull] at h
    simp at h
    refine ⟨by omega, ?_⟩
    subst h
    rfl

/-- Inversion of a successful `requestBatchDecryption`. -/
theorem requestBatchDecryption_ok (env : Env) (s : ContractState)
    (sender now batchId : Nat) (s' : ContractState)
    (h : requestBatchDecryption env s sender now batchId = .ok s') :
    s.isProvider sender = true ∧ s.paused = false ∧
    s.lastDecryptionRequestAt sender + s.cooldownSeconds ≤ now ∧
    (s.batches batchId).isActive = true ∧
    s' = { s with
      lastDecryptionRequestAt := updFn s.lastDecryptionRequestAt sender now,
      nextRequestId := s.nextRequestId + 1,
      decryptionContexts := updFn s.decryptionContexts s.nextRequestId
        { batchId := batchId,
          stateHash := hashCiphertexts env
            [env.fheToBytes32 (s.batches batchId).encryptedAggregate],
          processed := false, requester := sender },
      log := s.log ++ [Event.DecryptionRequested s.nextRequestId batchId
        (hashCiphertexts env
          [env.fheToBytes32 (s.batches batchId).encryptedAggregate])] } := by
  unfold requestBatchDecryption at h
  split at h
  · simp at h
  split at h
  · simp at h
  split at h
  · simp at h
  rename_i h1 h2 h3
  dsimp only at h
  split at h
  · simp at h
  rename_i h4
  have hprov : s.isProvider sender = true := by
    revert h1; cases s.isProvider sender <;> simp
  have hpause : s.paused = false := by
    revert h2; cases s.paused <;> simp
  have hact : (s.batches batchId).isActive = true := by
    revert h4; cases (s.batches batchId).isActive <;> simp
  simp at h
  exact ⟨hprov, hpause, by omega, hact, h.symm⟩

/-- Inversion of a successful decryption callback. -/
theorem callback_ok (env : Env) (s : ContractState)
    (requestId cleartexts proof : Nat) (s' : ContractState)
    (h : onBatchDecryptionComplete env s requestId cleartexts proof = .ok s') :
    (s.decryptionContexts requestId).processed = false ∧
    hashCiphertexts env [env.fheToBytes32
      (s.batches (s.decryptionContexts requestId).batchId).encryptedAggregate]
      = (s.decryptionContexts requestId).stateHash ∧
    env.checkSignatures requestId cleartexts proof = true ∧
    s' = { s with
      decryptionContexts := updFn s.decryptionContexts requestId
        { (s.decryptionContexts requestId) with processed := true },
      log := s.log ++ [Event.DecryptionComplete requestId
        (s.decryptionContexts requestId).batchId cleartexts] } := by
  unfold onBatchDecryptionComplete at h
  dsimp only at h
  split at h
  · simp at h
  split at h
  · simp at h
  split at h
  · simp at h
  rename_i h1 h2 h3
  have hproc : (s.decryptionContexts requestId).processed = false := by
    revert h1; cases (s.decryptionContexts requestId).processed <;> simp
  have hsig : env.checkSignatures requestId cleartexts proof = true := by
    revert h3; cases env.checkSignatures requestId cleartexts proof <;> simp
  simp at h
  exact ⟨hproc, by omega, hsig, h.symm⟩

/-- `closeBatch` can only fail with `NotOwner` or `BatchClosed`. -/
theorem closeBatch_error (s : ContractState) (sender batchId : Nat) (e : Err)
    (h : closeBatch s sender batchId = .error e) :
    e = .NotOwner ∨ e = .BatchClosed := by
  unfold closeBatch at h
  split at h
  · left; simpa using h.symm
  split at h
  · right; simpa using h.symm
  · simp at h

/-- `openBatch` can only fail with `NotOwner` or the internal `require`. -/
theorem openBatch_error (env : Env) (s : ContractState) (sender : Nat) (e : Err)
    (h : openBatch env s sender = .error e) :
    e = .NotOwner ∨ e = .Reverted "Invalid batch ID" := by
  unfold openBatch openBatchInternal at h
  split at h
  · left; simpa using h.symm
  · split at h
    · right; simpa using h.symm
    · simp at h

/-- Once every earlier check passes, no later step of `submitMod` can
report `RateLimited`. -/
theorem submitMod_not_rateLimited_of_ge (env : Env) (s : ContractState)
    (sender now batchId x : Nat)
    (hge : ¬ now < s.lastSubmissionAt sender + s.cooldownSeconds) :
    submitMod env s sender now batchId x ≠ .error .RateLimited := by
  intro h
  unfold submitMod at h
  split at h
  · simp at h
  split at h
  · simp at h
  split at h
  · simp at h
  dsimp only at h
  split at h
  · simp at h
  split at h
  · rename_i hfull
    split at h
    · rename_i e hclose
      have hce := closeBatch_error _ _ _ _ hclose
      have he : e = Err.RateLimited := by simpa using h
      subst he
      rcases hce with h' | h' <;> cases h'
    · rename_i s5 hclose
      have hoe := openBatch_error _ _ _ _ h
      rcases hoe with h' | h' <;> cases h'
  · simp at h

/-- C2: the preconditions of `submitMod` are checked in the order
provider, pause, batch-active, cooldown; the first violated one
determines the error and a failing call leaves the state unchanged. -/
theorem submitMod_check_order (env : Env) (s : ContractState)
    (sender now batchId x : Nat) :
    (s.isProvider sender = false →
      submitMod env s sender now batchId x = .error .NotProvider)
    ∧ (s.isProvider sender = true → s.paused = true →
      submitMod env s sender now batchId x = .error .Paused)
    ∧ (s.isProvider sender = true → s.paused = false →
      (s.batches batchId).isActive = false →
      submitMod env s sender now batchId x = .error .BatchClosed)
    ∧ (s.isProvider sender = true → s.paused = false →
      (s.batches batchId).isActive = true →
      now < s.lastSubmissionAt sender + s.cooldownSeconds →
      submitMod env s sender now batchId x = .error .RateLimited)
    ∧ (∀ e, submitMod env s sender now batchId x = .error e →
      execOp env s (Op.submitMod sender now batchId x) = s) := by
  refine ⟨?_, ?_, ?_, ?_, ?_⟩
  · intro h1; simp [submitMod, h1]
  · intro h1 h2; simp [submitMod, h1, h2]
  · intro h1 h2 h3; simp [submitMod, h1, h2, h3]
  · intro h1 h2 h3 h4; simp [submitMod, h1, h2, h3, h4]
  · intro e he; simp [execOp, runOp, he]

/-- C2 witness: each precondition error observed on a concrete state,
and a failing call leaving the deployment state unchanged. -/
theorem submitMod_check_order_witness :
    submitMod concreteEnv (initState concreteEnv 0) 3 40 1 5
      = .error .NotProvider
    ∧ submitMod concreteEnv
        (execOp concreteEnv (initState concreteEnv 0) (Op.pause 0)) 0 40 1 5
      = .error .Paused
    ∧ submitMod concreteEnv (initState concreteEnv 0) 0 40 2 5
      = .error .BatchClosed
    ∧ submitMod concreteEnv (initState concreteEnv 0) 0 10 1 5
      = .error .RateLimited
    ∧ execOp concreteEnv (initState concreteEnv 0) (Op.submitMod 3 40 1 5)
      = initState concreteEnv 0 :=
  ⟨(submitMod_check_order concreteEnv (initState concreteEnv 0) 3 40 1 5).1
      rfl,
   (submitMod_check_order concreteEnv
      (execOp concreteEnv (initState concreteEnv 0) (Op.pause 0))
      0 40 1 5).2.1 rfl rfl,
   (submitMod_check_order concreteEnv (initState concreteEnv 0)
      0 40 2 5).2.2.1 rfl rfl rfl,
   (submitMod_check_order concreteEnv (initState concreteEnv 0)
      0 10 1 5).2.2.2.1 rfl rfl rfl (by decide),
   (submitMod_check_order concreteEnv (initState concreteEnv 0)
      3 40 1 5).2.2.2.2 .NotProvider
     ((submitMod_check_order concreteEnv (initState concreteEnv 0)
        3 40 1 5).1 rfl)⟩

/-- C6: a submission that passes every precondition (including the
cooldown check, which stages a timestamp update) but then fails on an
uninitialized ciphertext reverts as a whole; in particular the staged
`lastSubmissionAt` update is discarded. -/
theorem submitMod_uninit_discards_cooldown (env : Env) (s : ContractState)
    (sender now batchId x : Nat)
    (hprov : s.isProvider sender = true) (hpause : s.paused = false)
    (hact : (s.batches batchId).isActive = true)
    (hcd : s.lastSubmissionAt sender + s.cooldownSeconds ≤ now)
    (hinit : env.fheIsInit x = false) :
    submitMod env s sender now batchId x =
      .error (.Reverted "Uninitialized: encryptedScore")
    ∧ (execOp env s (Op.submitMod sender now batchId x)).lastSubmissionAt
        = s.lastSubmissionAt := by
  have he : submitMod env s sender now batchId x =
      .error (.Reverted "Uninitialized: encryptedScore") := by
    simp [submitMod, hprov, hpause, hact, hinit, Nat.not_lt.mpr hcd]
  exact ⟨he, by simp [execOp, runOp, he]⟩

/-- C6 witness. -/
theorem submitMod_uninit_discards_cooldown_witness :
    submitMod concreteEnv (initState concreteEnv 0) 0 40 1 0 =
      .error (.Reverted "Uninitialized: encryptedScore")
    ∧ (execOp concreteEnv (initState concreteEnv 0)
        (Op.submitMod 0 40 1 0)).lastSubmissionAt
      = (initState concreteEnv 0).lastSubmissionAt :=
  submitMod_uninit_discards_cooldown concreteEnv (initState concreteEnv 0)
    0 40 1 0 rfl rfl rfl (by decide) rfl

/-- C9: a submission with an uninitialized (null/default) ciphertext
handle never succeeds, and the failing call leaves the whole state — in
particular the batch aggregate and counter — unchanged. -/
theorem submitMod_rejects_uninit (env : Env) (s : ContractState)
    (sender now batchId x : Nat)
    (hinit : env.fheIsInit x = false) :
    (∀ s', submitMod env s sender now batchId x ≠ .ok s')
    ∧ execOp env s (Op.submitMod sender now batchId x) = s := by
  have key : ∀ s', submitMod env s sender now batchId x ≠ .ok s' := by
    intro s' hok
    have := (submitMod_ok env s sender now batchId x s' hok).2.2.2.2.1
    simp [hinit] at this
  refine ⟨key, ?_⟩
  cases hr : submitMod env s sender now batchId x with
  | ok s' => exact absurd hr (key s')
  | error e => simp [execOp, runOp, hr]

/-- C9 witness. -/
theorem submitMod_rejects_uninit_witness :
    (∀ s', submitMod concreteEnv (initState concreteEnv 0) 0 40 1 0 ≠ .ok s')
    ∧ execOp concreteEnv (initState concreteEnv 0) (Op.submitMod 0 40 1 0)
      = initState concreteEnv 0 :=
  submitMod_rejects_uninit concreteEnv (initState concreteEnv 0) 0 40 1 0 rfl


theorem execOp_of_ok {env : Env} {s : ContractState} {op : Op}
    {s' : ContractState} (h : runOp env s op = .ok s') :
    execOp env s op = s' := by
  simp [execOp, h]

/-- C7 -/
theorem cooldown_contract (env : Env) (s : ContractState)
    (sender now now2 batchId x : Nat)
    (hprov : s.isProvider sender = true) (hpause : s.paused = false) :
    ((s.batches batchId).isActive = true →
      (submitMod env s sender now batchId x = .error .RateLimited ↔
        now < s.lastSubmissionAt sender + s.cooldownSeconds))
    ∧ (∀ s', submitMod env s sender now batchId x = .ok s' →
        s'.lastSubmissionAt sender = now)
    ∧ (requestBatchDecryption env s sender now2 batchId
        = .error .RateLimited ↔
        now2 < s.lastDecryptionRequestAt sender + s.cooldownSeconds)
    ∧ (∀ s', requestBatchDecryption env s sender now2 batchId = .ok s' →
        s'.lastDecryptionRequestAt sender = now2)
    ∧ (∀ t b x' s1, s.cooldownSeconds = 30 →
        (s.batches b).submissionCount = 0 →
        submitMod env s sender t b x' = .ok s1 →
        (s1.batches b).submissionCount = 1
        ∧ submitMod env s1 sender (t + 10) b x' = .error .RateLimited
        ∧ submitMod env s1 sender (t + 31) b x'
            = .ok (execOp env s1 (Op.submitMod sender (t + 31) b x'))
        ∧ Batch.submissionCount
            ((execOp env s1 (Op.submitMod sender (t + 31) b x')).batches b)
            = 2) := by
  refine ⟨?_, ?_, ?_, ?_, ?_⟩
  · intro hact
    constructor
    · intro h
      by_contra hge
      exact submitMod_not_rateLimited_of_ge env s sender now batchId x hge h
    · intro hlt
      simp [submitMod, hprov, hpause, hact, hlt]
  · intro s' hok
    rcases (submitMod_ok env s sender now batchId x s' hok).2.2.2.2.2 with
      ⟨-, hs'⟩ | ⟨-, -, hs'⟩ <;> subst hs' <;> simp
  · constructor
    · intro h
      by_contra hge
      unfold requestBatchDecryption at h
      simp only [hprov, hpause] at h
      rw [if_neg (by simp)] at h
      rw [if_neg (by simp)] at h
      rw [if_neg hge] at h
      split at h <;> simp at h
    · intro hlt
      simp [requestBatchDecryption, hprov, hpause, hlt]
  · intro s' hok
    have hrec := (requestBatchDecryption_ok env s sender now2 batchId s' hok).2.2.2.2
    subst hrec
    simp
  · intro t b x' s1 hcool hcnt hok
    obtain ⟨-, -, hact, -, hinitx, hbr⟩ :=
      submitMod_ok env s sender t b x' s1 hok
    rcases hbr with ⟨-, hs1⟩ | ⟨habs, -, -⟩
    swap
    · omega
    subst hs1
    have hcnt1 : ∀ u v : Nat,
        10 ≤ (s.batches b).submissionCount + 1 + 1 → False := by
      intro _ _ hh; omega
    refine ⟨by simp [hcnt], ?_, ?_, ?_⟩
    · simp [submitMod, hprov, hpause, hact, hcool,
        show t + 10 < t + 30 from by omega]
    · have hex : ∃ s2, submitMod env
          { s with
            lastSubmissionAt := updFn s.lastSubmissionAt sender t,
            batches := updFn s.batches b
              { (s.batches b) with
                encryptedAggregate :=
                  env.fheAdd (s.batches b).encryptedAggregate x'
                submissionCount := (s.batches b).submissionCount + 1 },
            log := s.log ++
              [Event.ModSubmission sender b (env.fheToBytes32 x')] }
          sender (t + 31) b x' = .ok s2 := by
        simp [submitMod, hprov, hpause, hact, hcool, hinitx, hcnt,
          show ¬ (t + 31 < t + 30) from by omega]
      obtain ⟨s2, hs2⟩ := hex
      rw [hs2]
      simp [execOp, runOp, hs2]
    · have hex : ∃ s2, submitMod env
          { s with
            lastSubmissionAt := updFn s.lastSubmissionAt sender t,
            batches := updFn s.batches b
              { (s.batches b) with
                encryptedAggregate :=
                  env.fheAdd (s.batches b).encryptedAggregate x'
                submissionCount := (s.batches b).submissionCount + 1 },
            log := s.log ++
              [Event.ModSubmission sender b (env.fheToBytes32 x')] }
          sender (t + 31) b x' = .ok s2 := by
        simp [submitMod, hprov, hpause, hact, hcool, hinitx, hcnt,
          show ¬ (t + 31 < t + 30) from by omega]
      obtain ⟨s2, hs2⟩ := hex
      rw [execOp_of_ok (show runOp _ _ _ = _ by simpa [runOp] using hs2)]
      obtain ⟨-, -, -, -, -, hbr2⟩ := submitMod_ok env _ sender (t + 31) b x' s2 hs2
      rcases hbr2 with ⟨-, hs2e⟩ | ⟨habs2, -, -⟩
      · subst hs2e
        simp [hcnt]
      · simp [hcnt] at habs2



/-- C7 witness -/
theorem cooldown_contract_witness :
    submitMod concreteEnv (initState concreteEnv 0) 0 10 1 5
      = .error .RateLimited
    ∧ ((execOp concreteEnv (initState concreteEnv 0)
        (Op.submitMod 0 40 1 5)).batches 1).submissionCount = 1
    ∧ submitMod concreteEnv (execOp concreteEnv (initState concreteEnv 0)
        (Op.submitMod 0 40 1 5)) 0 50 1 5 = .error .RateLimited
    ∧ Batch.submissionCount ((execOp concreteEnv (execOp concreteEnv
        (initState concreteEnv 0) (Op.submitMod 0 40 1 5))
        (Op.submitMod 0 71 1 5)).batches 1) = 2 := by
  have h := cooldown_contract concreteEnv (initState concreteEnv 0)
    0 10 100 1 5 rfl rfl
  have hsc := h.2.2.2.2 40 1 5
    (execOp concreteEnv (initState concreteEnv 0) (Op.submitMod 0 40 1 5))
    rfl rfl (by rfl)
  exact ⟨(h.1 rfl).mpr (by decide), hsc.1, hsc.2.1, hsc.2.2.2⟩

/-- C1 -/
theorem submitMod_tenth_rollover (env : Env) (s : ContractState)
    (sender now batchId x : Nat) (s' : ContractState)
    (hcnt : (s.batches batchId).submissionCount = 9)
    (hb : batchId ≠ s.currentBatchId + 1)
    (hok : submitMod env s sender now batchId x = .ok s') :
    (s'.batches batchId).isActive = false
    ∧ (s'.batches batchId).submissionCount = 10
    ∧ s'.currentBatchId = s.currentBatchId + 1
    ∧ (s'.batches (s.currentBatchId + 1)).isActive = true
    ∧ (s'.batches (s.currentBatchId + 1)).submissionCount = 0
    ∧ s'.log = s.log ++
        [Event.ModSubmission sender batchId (env.fheToBytes32 x),
         Event.BatchAggregateCommitted batchId
           (env.fheAdd (s.batches batchId).encryptedAggregate x),
         Event.BatchClosed batchId,
         Event.BatchOpened (s.currentBatchId + 1)]
    ∧ (∀ sender2 now2 x2, s'.isProvider sender2 = true → s'.paused = false →
        submitMod env s' sender2 now2 batchId x2 = .error .BatchClosed) := by
  obtain ⟨-, -, -, -, -, hbr⟩ := submitMod_ok env s sender now batchId x s' hok
  rcases hbr with ⟨hlt, -⟩ | ⟨-, -, hs'⟩
  · omega
  subst hs'
  have hclosed : (updFn (updFn (updFn s.batches batchId
      { (s.batches batchId) with
        encryptedAggregate := env.fheAdd (s.batches batchId).encryptedAggregate x
        submissionCount := (s.batches batchId).submissionCount + 1 })
      batchId
      { (s.batches batchId) with
        encryptedAggregate := env.fheAdd (s.batches batchId).encryptedAggregate x
        submissionCount := (s.batches batchId).submissionCount + 1
        isActive := false })
      (s.currentBatchId + 1)
      { isActive := true, submissionCount := 0,
        encryptedAggregate := env.fheAsEuint32 0 } batchId).isActive = false := by
    simp [hb]
  refine ⟨by simp [hb], by simp [hb, hcnt], rfl, by simp, by simp, by simp, ?_⟩
  intro sender2 now2 x2 hp2 hq2
  simp only at hp2 hq2
  simp [submitMod, hp2, hq2, hclosed]

/-- C4 -/
theorem callback_stale_after_submission (env : Env)
    (s0 s1 s2 : ContractState) (sender now b sender2 now2 x c p : Nat)
    (hreq : requestBatchDecryption env s0 sender now b = .ok s1)
    (hsub : submitMod env s1 sender2 now2 b x = .ok s2)
    (hdiff : hashCiphertexts env
        [env.fheToBytes32 (s2.batches b).encryptedAggregate]
      ≠ hashCiphertexts env
        [env.fheToBytes32 (s0.batches b).encryptedAggregate]) :
    onBatchDecryptionComplete env s2 s0.nextRequestId c p
      = .error .InvalidState
    ∧ (ContractState.decryptionContexts
        (execOp env s2 (Op.onBatchDecryptionComplete s0.nextRequestId c p))
        s0.nextRequestId).processed = false := by
  obtain ⟨-, -, -, -, hs1⟩ :=
    requestBatchDecryption_ok env s0 sender now b s1 hreq
  have hctxpre : s1.decryptionContexts s0.nextRequestId =
      { batchId := b,
        stateHash := hashCiphertexts env
          [env.fheToBytes32 (s0.batches b).encryptedAggregate],
        processed := false, requester := sender } := by
    subst hs1; simp
  have hpres : s2.decryptionContexts = s1.decryptionContexts := by
    rcases (submitMod_ok env s1 sender2 now2 b x s2 hsub).2.2.2.2.2 with
      ⟨-, h⟩ | ⟨-, -, h⟩ <;> subst h <;> rfl
  have hctx : s2.decryptionContexts s0.nextRequestId =
      { batchId := b,
        stateHash := hashCiphertexts env
          [env.fheToBytes32 (s0.batches b).encryptedAggregate],
        processed := false, requester := sender } := by
    rw [hpres, hctxpre]
  have herr : onBatchDecryptionComplete env s2 s0.nextRequestId c p
      = .error .InvalidState := by
    unfold onBatchDecryptionComplete
    rw [hctx]
    simp [hdiff]
  exact ⟨herr, by simp [execOp, runOp, herr, hctx]⟩

/-- C4 witness -/
theorem callback_stale_after_submission_witness :
    onBatchDecryptionComplete concreteEnv
      (execOp concreteEnv
        (execOp concreteEnv (initState concreteEnv 0)
          (Op.requestBatchDecryption 0 100 1))
        (Op.submitMod 0 50 1 5)) 0 42 42
      = .error .InvalidState
    ∧ (ContractState.decryptionContexts
        (execOp concreteEnv
          (execOp concreteEnv
            (execOp concreteEnv (initState concreteEnv 0)
              (Op.requestBatchDecryption 0 100 1))
            (Op.submitMod 0 50 1 5))
          (Op.onBatchDecryptionComplete 0 42 42)) 0).processed = false :=
  callback_stale_after_submission concreteEnv
    (initState concreteEnv 0)
    (execOp concreteEnv (initState concreteEnv 0)
      (Op.requestBatchDecryption 0 100 1))
    (execOp concreteEnv
      (execOp concreteEnv (initState concreteEnv 0)
        (Op.requestBatchDecryption 0 100 1))
      (Op.submitMod 0 50 1 5))
    0 100 1 0 50 5 42 42 (by rfl) (by rfl) (by decide)

/-- C10 -/
theorem callback_unknown_request (env : Env) (s : ContractState)
    (r c p : Nat)
    (hctx : s.decryptionContexts r = emptyContext)
    (hdiff : hashCiphertexts env
      [env.fheToBytes32 (s.batches 0).encryptedAggregate] ≠ 0) :
    onBatchDecryptionComplete env s r c p = .error .InvalidState
    ∧ execOp env s (Op.onBatchDecryptionComplete r c p) = s := by
  have herr : onBatchDecryptionComplete env s r c p
      = .error .InvalidState := by
    unfold onBatchDecryptionComplete
    rw [hctx]
    simp [emptyContext, hdiff]
  exact ⟨herr, by simp [execOp, runOp, herr]⟩

/-- C10 witness -/
theorem callback_unknown_request_witness :
    onBatchDecryptionComplete concreteEnv (initState concreteEnv 0) 99 42 42
      = .error .InvalidState
    ∧ execOp concreteEnv (initState concreteEnv 0)
        (Op.onBatchDecryptionComplete 99 42 42) = initState concreteEnv 0 :=
  callback_unknown_request concreteEnv (initState concreteEnv 0) 99 42 42
    rfl (by decide)



theorem execOp_of_error {env : Env} {s : ContractState} {op : Op} {e : Err}
    (h : runOp env s op = .error e) : execOp env s op = s := by
  simp [execOp, h]

theorem addProvider_ok (s : ContractState) (sender p : Nat)
    (s' : ContractState) (h : addProvider s sender p = .ok s') :
    s' = { s with
      isProvider := updFn s.isProvider p true,
      log := s.log ++ [Event.ProviderAdded p] } := by
  unfold addProvider at h
  split at h
  · simp at h
  · simpa using h.symm

theorem removeProvider_ok (s : ContractState) (sender p : Nat)
    (s' : ContractState) (h : removeProvider s sender p = .ok s') :
    s' = { s with
      isProvider := updFn s.isProvider p false,
      log := s.log ++ [Event.ProviderRemoved p] } := by
  unfold removeProvider at h
  split at h
  · simp at h
  · simpa using h.symm

theorem pause_ok (s : ContractState) (sender : Nat)
    (s' : ContractState) (h : pause s sender = .ok s') :
    s' = { s with paused := true, log := s.log ++ [Event.Paused] } := by
  unfold pause at h
  split at h
  · simp at h
  · simpa using h.symm

theorem unpause_ok (s : ContractState) (sender : Nat)
    (s' : ContractState) (h : unpause s sender = .ok s') :
    s' = { s with paused := false, log := s.log ++ [Event.Unpaused] } := by
  unfold unpause at h
  split at h
  · simp at h
  · simpa using h.symm

theorem setCooldown_ok (s : ContractState) (sender c : Nat)
    (s' : ContractState) (h : setCooldown s sender c = .ok s') :
    s' = { s with
      cooldownSeconds := c,
      log := s.log ++ [Event.CooldownUpdated c] } := by
  unfold setCooldown at h
  split at h
  · simp at h
  · simpa using h.symm

/-- Every operation except a decryption request or callback leaves the
request-context table and the oracle counter unchanged. -/
theorem runOp_preserves_ctx (env : Env) (s : ContractState) (op : Op)
    (s' : ContractState) (h : runOp env s op = .ok s')
    (hnr : ∀ a b c, op ≠ Op.requestBatchDecryption a b c)
    (hnc : ∀ a b c, op ≠ Op.onBatchDecryptionComplete a b c) :
    s'.decryptionContexts = s.decryptionContexts ∧
    s'.nextRequestId = s.nextRequestId := by
  cases op with
  | addProvider a b =>
    rw [addProvider_ok s a b s' (by simpa [runOp] using h)]; exact ⟨rfl, rfl⟩
  | removeProvider a b =>
    rw [removeProvider_ok s a b s' (by simpa [runOp] using h)]; exact ⟨rfl, rfl⟩
  | pause a =>
    rw [pause_ok s a s' (by simpa [runOp] using h)]; exact ⟨rfl, rfl⟩
  | unpause a =>
    rw [unpause_ok s a s' (by simpa [runOp] using h)]; exact ⟨rfl, rfl⟩
  | setCooldown a b =>
    rw [setCooldown_ok s a b s' (by simpa [runOp] using h)]; exact ⟨rfl, rfl⟩
  | openBatch a =>
    rw [(openBatch_ok env s a s' (by simpa [runOp] using h)).2]
    exact ⟨rfl, rfl⟩
  | closeBatch a b =>
    rw [(closeBatch_ok s a b s' (by simpa [runOp] using h)).2.2]
    exact ⟨rfl, rfl⟩
  | submitMod a b c d =>
    rcases (submitMod_ok env s a b c d s'
        (by simpa [runOp] using h)).2.2.2.2.2 with ⟨-, hs'⟩ | ⟨-, -, hs'⟩ <;>
      subst hs' <;> exact ⟨rfl, rfl⟩
  | requestBatchDecryption a b c => exact absurd rfl (hnr a b c)
  | onBatchDecryptionComplete a b c => exact absurd rfl (hnc a b c)

/-- `CtxFresh` holds at deployment. -/
theorem ctxFresh_initState (env : Env) (d : Nat) :
    CtxFresh (initState env d) := by
  intro r _
  rfl

/-- `CtxFresh` is preserved by every call, provided the digest function
never returns the all-zero value. -/
theorem ctxFresh_execOp (env : Env)
    (hk : ∀ cts a, env.keccak256enc cts a ≠ 0)
    (s : ContractState) (op : Op) (h : CtxFresh s) :
    CtxFresh (execOp env s op) := by
  cases hop : runOp env s op with
  | error e => rw [execOp_of_error hop]; exact h
  | ok s' =>
    rw [execOp_of_ok hop]
    cases op
    case requestBatchDecryption a b c =>
      obtain ⟨-, -, -, -, hs'⟩ :=
        requestBatchDecryption_ok env s a b c s' (by simpa [runOp] using hop)
      subst hs'
      intro r hr
      simp only at hr ⊢
      rw [updFn_ne _ _ _ r (by omega)]
      exact h r (by omega)
    case onBatchDecryptionComplete a b c =>
      obtain ⟨hproc, hdig, -, hs'⟩ :=
        callback_ok env s a b c s' (by simpa [runOp] using hop)
      have ha : a < s.nextRequestId := by
        by_contra hge
        rw [h a (by omega)] at hdig
        exact hk _ _ (by simpa [emptyContext] using hdig)
      subst hs'
      intro r hr
      simp only at hr ⊢
      rw [updFn_ne _ _ _ r (by omega)]
      exact h r hr
    all_goals
      obtain ⟨h1, h2⟩ := runOp_preserves_ctx env s _ s' hop
        (by intro _ _ _ hc; cases hc) (by intro _ _ _ hc; cases hc)
    all_goals intro r hr
    all_goals rw [h1]
    all_goals exact h r (h2 ▸ hr)



/-- A processed request stays processed (and its id allocated) across
every further call. -/
theorem processedStable_execOp (env : Env) (r : Nat) (s : ContractState)
    (op : Op) (h : ProcessedStable r s) :
    ProcessedStable r (execOp env s op) := by
  obtain ⟨hproc, hlt⟩ := h
  cases hop : runOp env s op with
  | error e => rw [execOp_of_error hop]; exact ⟨hproc, hlt⟩
  | ok s' =>
    rw [execOp_of_ok hop]
    cases op
    case requestBatchDecryption a b c =>
      obtain ⟨-, -, -, -, hs'⟩ :=
        requestBatchDecryption_ok env s a b c s' (by simpa [runOp] using hop)
      subst hs'
      refine ⟨?_, by simp only; omega⟩
      simp only
      rw [updFn_ne _ _ _ r (by omega)]
      exact hproc
    case onBatchDecryptionComplete a b c =>
      obtain ⟨hproc2, -, -, hs'⟩ :=
        callback_ok env s a b c s' (by simpa [runOp] using hop)
      have hne : r ≠ a := by
        intro hra
        rw [hra] at hproc
        rw [hproc] at hproc2
        cases hproc2
      subst hs'
      refine ⟨?_, hlt⟩
      simp only
      rw [updFn_ne _ _ _ r hne]
      exact hproc
    all_goals
      obtain ⟨h1, h2⟩ := runOp_preserves_ctx env s _ s' hop
        (by intro _ _ _ hc; cases hc) (by intro _ _ _ hc; cases hc)
    all_goals rw [ProcessedStable, h1, h2]
    all_goals exact ⟨hproc, hlt⟩

/-- `CtxFresh` is preserved by any sequence of calls. -/
theorem ctxFresh_execOps (env : Env)
    (hk : ∀ cts a, env.keccak256enc cts a ≠ 0)
    (s : ContractState) (ops : List Op) (h : CtxFresh s) :
    CtxFresh (execOps env s ops) := by
  induction ops generalizing s with
  | nil => exact h
  | cons op rest ih =>
    exact ih (execOp env s op) (ctxFresh_execOp env hk s op h)

/-- `ProcessedStable` is preserved by any sequence of calls. -/
theorem processedStable_execOps (env : Env) (r : Nat) (s : ContractState)
    (ops : List Op) (h : ProcessedStable r s) :
    ProcessedStable r (execOps env s ops) := by
  induction ops generalizing s with
  | nil => exact h
  | cons op rest ih =>
    exact ih (execOp env s op) (processedStable_execOp env r s op h)

/-- C3: on any reachable state, once the decryption callback has
succeeded for a request id, every later invocation of the callback with
that id — after any further sequence of calls — fails with
`ReplayAttempt` and leaves the state unchanged. The digest function is
assumed never to produce the all-zero word (collision-freedom of
`keccak256` with the zero default). -/
theorem callback_succeeds_at_most_once (env : Env)
    (hk : ∀ cts a, env.keccak256enc cts a ≠ 0)
    (s s' : ContractState) (r c p : Nat)
    (hreach : Reachable env s)
    (hok : onBatchDecryptionComplete env s r c p = .ok s') :
    ∀ ops c2 p2,
      onBatchDecryptionComplete env (execOps env s' ops) r c2 p2
        = .error .ReplayAttempt
      ∧ execOp env (execOps env s' ops)
          (Op.onBatchDecryptionComplete r c2 p2) = execOps env s' ops := by
  obtain ⟨d, ops0, hs⟩ := hreach
  have hfresh : CtxFresh s := by
    subst hs
    exact ctxFresh_execOps env hk _ ops0 (ctxFresh_initState env d)
  obtain ⟨hproc, hdig, hsig, hs'⟩ := callback_ok env s r c p s' hok
  have hlt : r < s.nextRequestId := by
    by_contra hge
    rw [hfresh r (by omega)] at hdig
    exact hk _ _ (by simpa [emptyContext] using hdig)
  have hstab : ProcessedStable r s' := by
    subst hs'
    exact ⟨by simp, by simpa using hlt⟩
  intro ops c2 p2
  have hstab2 : ProcessedStable r (execOps env s' ops) :=
    processedStable_execOps env r s' ops hstab
  have herr : onBatchDecryptionComplete env (execOps env s' ops) r c2 p2
      = .error .ReplayAttempt := by
    simp [onBatchDecryptionComplete, hstab2.1]
  exact ⟨herr, execOp_of_error (by simpa [runOp] using herr)⟩

/-- C3 witness: deploy, request decryption (request id 0), complete it,
run one further request, then observe that replaying id 0 fails with
`ReplayAttempt` and changes nothing. -/
theorem callback_succeeds_at_most_once_witness :
    onBatchDecryptionComplete concreteEnv
      (execOps concreteEnv
        (execOp concreteEnv
          (execOps concreteEnv (initState concreteEnv 0)
            [Op.requestBatchDecryption 0 100 1])
          (Op.onBatchDecryptionComplete 0 42 42))
        [Op.requestBatchDecryption 0 200 1]) 0 43 43
      = .error .ReplayAttempt
    ∧ execOp concreteEnv
        (execOps concreteEnv
          (execOp concreteEnv
            (execOps concreteEnv (initState concreteEnv 0)
              [Op.requestBatchDecryption 0 100 1])
            (Op.onBatchDecryptionComplete 0 42 42))
          [Op.requestBatchDecryption 0 200 1])
        (Op.onBatchDecryptionComplete 0 43 43)
      = execOps concreteEnv
          (execOp concreteEnv
            (execOps concreteEnv (initState concreteEnv 0)
              [Op.requestBatchDecryption 0 100 1])
            (Op.onBatchDecryptionComplete 0 42 42))
          [Op.requestBatchDecryption 0 200 1] :=
  callback_succeeds_at_most_once concreteEnv
    (fun _ _ => Nat.succ_ne_zero _)
    (execOps concreteEnv (initState concreteEnv 0)
      [Op.requestBatchDecryption 0 100 1])
    (execOp concreteEnv
      (execOps concreteEnv (initState concreteEnv 0)
        [Op.requestBatchDecryption 0 100 1])
      (Op.onBatchDecryptionComplete 0 42 42))
    0 42 42 ⟨0, [Op.requestBatchDecryption 0 100 1], rfl⟩ (by rfl)
    [Op.requestBatchDecryption 0 200 1] 43 43



/-- A successful submission replaces the target batch aggregate by the
homomorphic sum with the incoming score (provided the batch is not the
pathological `currentBatchId + 1` slot, which no reachable active batch
occupies), and never decreases `currentBatchId`. -/
theorem submitMod_ok_agg (env : Env) (s : ContractState)
    (sender now b x : Nat) (s' : ContractState)
    (hb : b ≤ s.currentBatchId)
    (hok : submitMod env s sender now b x = .ok s') :
    (s'.batches b).encryptedAggregate
      = env.fheAdd (s.batches b).encryptedAggregate x
    ∧ b ≤ s'.currentBatchId := by
  rcases (submitMod_ok env s sender now b x s' hok).2.2.2.2.2 with
    ⟨-, hs'⟩ | ⟨-, -, hs'⟩ <;> subst hs'
  · exact ⟨by simp, hb⟩
  · have hbne : b ≠ s.currentBatchId + 1 := by omega
    exact ⟨by simp [hbne], by simp only; omega⟩

/-- Running a sequence of accepted submissions folds their scores into
the batch aggregate, left to right. -/
theorem runSubs_agg (env : Env) (b : Nat) (subs : List (Nat × Nat × Nat))
    (s s' : ContractState)
    (hb : b ≤ s.currentBatchId)
    (h : runSubs env b s subs = some s') :
    (s'.batches b).encryptedAggregate
      = List.foldl env.fheAdd ((s.batches b).encryptedAggregate)
          (subScores subs) := by
  induction subs generalizing s with
  | nil =>
    simp [runSubs] at h
    subst h
    simp [subScores]
  | cons hd tl ih =>
    obtain ⟨sender, now, x⟩ := hd
    simp only [runSubs] at h
    cases hstep : submitMod env s sender now b x with
    | error e => rw [hstep] at h; simp at h
    | ok smid =>
      rw [hstep] at h
      obtain ⟨hagg, hble⟩ := submitMod_ok_agg env s sender now b x smid hb hstep
      have hrest := ih smid hble h
      rw [hrest, hagg]
      simp [subScores]

/-- Commutativity and associativity make `homSum` invariant under
permutations. -/
theorem homSum_perm (env : Env)
    (hcomm : ∀ a b, env.fheAdd a b = env.fheAdd b a)
    (hassoc : ∀ a b c, env.fheAdd (env.fheAdd a b) c
      = env.fheAdd a (env.fheAdd b c))
    {xs ys : List Nat} (hp : xs.Perm ys) :
    homSum env xs = homSum env ys := by
  unfold homSum
  exact hp.foldl_eq'
    (fun x _ y _ z => by rw [hassoc, hassoc, hcomm x y]) _

/-- C8: under commutative/associative homomorphic addition with
encrypted zero as identity, the aggregate reached by any sequence of
accepted submissions into one (freshly opened) batch is the homomorphic
sum of the submitted scores, independent of submission order. -/
theorem aggregate_is_order_independent_sum (env : Env)
    (hcomm : ∀ a b, env.fheAdd a b = env.fheAdd b a)
    (hassoc : ∀ a b c, env.fheAdd (env.fheAdd a b) c
      = env.fheAdd a (env.fheAdd b c))
    (hzero : ∀ a, env.fheAdd (env.fheAsEuint32 0) a = a)
    (s s' : ContractState) (b : Nat) (subs : List (Nat × Nat × Nat))
    (hfresh : (s.batches b).encryptedAggregate = env.fheAsEuint32 0)
    (hb : b ≤ s.currentBatchId)
    (hrun : runSubs env b s subs = some s') :
    (s'.batches b).encryptedAggregate = homSum env (subScores subs)
    ∧ (∀ ys, (subScores subs).Perm ys →
        (s'.batches b).encryptedAggregate = homSum env ys)
    ∧ (∀ x, homSum env [x] = x) := by
  have h1 : (s'.batches b).encryptedAggregate
      = homSum env (subScores subs) := by
    rw [runSubs_agg env b subs s s' hb hrun, hfresh]
    rfl
  refine ⟨h1, ?_, fun x => by simp [homSum, hzero]⟩
  intro ys hp
  rw [h1]
  exact homSum_perm env hcomm hassoc hp

/-- C8 witness: two accepted submissions of 3 and 4 under plain `Nat`
addition; the aggregate is the sum `homSum [3, 4]`, also equal to the
sum in the swapped order. -/
theorem aggregate_is_order_independent_sum_witness :
    runSubs natAddEnv 1 (initState natAddEnv 0) [(0, 50, 3), (0, 100, 4)]
      = some c8State
    ∧ (c8State.batches 1).encryptedAggregate = homSum natAddEnv [3, 4]
    ∧ (c8State.batches 1).encryptedAggregate = homSum natAddEnv [4, 3] := by
  have h := aggregate_is_order_independent_sum natAddEnv
    (fun a b => Nat.add_comm a b) (fun a b c => Nat.add_assoc a b c)
    (fun a => Nat.zero_add a)
    (initState natAddEnv 0) c8State 1 [(0, 50, 3), (0, 100, 4)]
    rfl (by decide) rfl
  exact ⟨rfl, h.1, h.2.1 [4, 3] (by decide)⟩



/-- Operations other than `openBatch`, `closeBatch` and `submitMod`
leave the batch table and the current batch id unchanged. -/
theorem runOp_preserves_batches (env : Env) (s : ContractState) (op : Op)
    (s' : ContractState) (h : runOp env s op = .ok s')
    (h1 : ∀ a, op ≠ Op.openBatch a)
    (h2 : ∀ a b, op ≠ Op.closeBatch a b)
    (h3 : ∀ a b c d, op ≠ Op.submitMod a b c d) :
    s'.batches = s.batches ∧ s'.currentBatchId = s.currentBatchId := by
  cases op with
  | addProvider a b =>
    rw [addProvider_ok s a b s' (by simpa [runOp] using h)]; exact ⟨rfl, rfl⟩
  | removeProvider a b =>
    rw [removeProvider_ok s a b s' (by simpa [runOp] using h)]; exact ⟨rfl, rfl⟩
  | pause a =>
    rw [pause_ok s a s' (by simpa [runOp] using h)]; exact ⟨rfl, rfl⟩
  | unpause a =>
    rw [unpause_ok s a s' (by simpa [runOp] using h)]; exact ⟨rfl, rfl⟩
  | setCooldown a b =>
    rw [setCooldown_ok s a b s' (by simpa [runOp] using h)]; exact ⟨rfl, rfl⟩
  | requestBatchDecryption a b c =>
    rw [(requestBatchDecryption_ok env s a b c s'
      (by simpa [runOp] using h)).2.2.2.2]
    exact ⟨rfl, rfl⟩
  | onBatchDecryptionComplete a b c =>
    rw [(callback_ok env s a b c s' (by simpa [runOp] using h)).2.2.2]
    exact ⟨rfl, rfl⟩
  | openBatch a => exact absurd rfl (h1 a)
  | closeBatch a b => exact absurd rfl (h2 a b)
  | submitMod a b c d => exact absurd rfl (h3 a b c d)

/-- `ActiveIdsBounded` holds at deployment. -/
theorem activeIdsBounded_initState (env : Env) (d : Nat) :
    ActiveIdsBounded (initState env d) := by
  refine ⟨Nat.le_refl 1, ?_⟩
  intro i hi
  by_cases h : i = 1
  · subst h; exact ⟨Nat.le_refl 1, Nat.le_refl 1⟩
  · simp [initState, updFn, emptyBatch, h] at hi

/-- `ActiveIdsBounded` is preserved by every call. -/
theorem activeIdsBounded_execOp (env : Env) (s : ContractState) (op : Op)
    (h : ActiveIdsBounded s) : ActiveIdsBounded (execOp env s op) := by
  obtain ⟨hcur, hbnd⟩ := h
  cases hop : runOp env s op with
  | error e => rw [execOp_of_error hop]; exact ⟨hcur, hbnd⟩
  | ok s' =>
    rw [execOp_of_ok hop]
    cases op
    case openBatch a =>
      obtain ⟨-, hs'⟩ := openBatch_ok env s a s' (by simpa [runOp] using hop)
      subst hs'
      refine ⟨by simp only; omega, ?_⟩
      intro i hi
      simp only at hi ⊢
      by_cases hic : i = s.currentBatchId + 1
      · subst hic; exact ⟨by omega, Nat.le_refl _⟩
      · rw [updFn_ne _ _ _ i hic] at hi
        have := hbnd i hi
        omega
    case closeBatch a b =>
      obtain ⟨-, -, hs'⟩ := closeBatch_ok s a b s' (by simpa [runOp] using hop)
      subst hs'
      refine ⟨hcur, ?_⟩
      intro i hi
      simp only at hi ⊢
      by_cases hib : i = b
      · subst hib; rw [updFn_self] at hi; simp at hi
      · rw [updFn_ne _ _ _ i hib] at hi; exact hbnd i hi
    case submitMod a t b x =>
      obtain ⟨-, -, hact, -, -, hbr⟩ :=
        submitMod_ok env s a t b x s' (by simpa [runOp] using hop)
      rcases hbr with ⟨-, hs'⟩ | ⟨-, -, hs'⟩ <;> subst hs'
      · refine ⟨hcur, ?_⟩
        intro i hi
        simp only at hi ⊢
        by_cases hib : i = b
        · subst hib; exact hbnd _ hact
        · rw [updFn_ne _ _ _ i hib] at hi; exact hbnd i hi
      · refine ⟨by simp only; omega, ?_⟩
        intro i hi
        simp only at hi ⊢
        by_cases hic : i = s.currentBatchId + 1
        · subst hic; exact ⟨by omega, Nat.le_refl _⟩
        · rw [updFn_ne _ _ _ i hic] at hi
          by_cases hib : i = b
          · subst hib; rw [updFn_self] at hi; simp at hi
          · rw [updFn_ne _ _ _ i hib, updFn_ne _ _ _ i hib] at hi
            have := hbnd i hi
            omega
    all_goals
      obtain ⟨hB, hC⟩ := runOp_preserves_batches env s _ s' hop
        (by intro _ hc; cases hc) (by intro _ _ hc; cases hc)
        (by intro _ _ _ _ hc; cases hc)
    all_goals unfold ActiveIdsBounded
    all_goals rw [hB, hC]
    all_goals exact ⟨hcur, hbnd⟩

/-- `currentBatchId` never decreases. -/
theorem execOp_cur_mono (env : Env) (s : ContractState) (op : Op) :
    s.currentBatchId ≤ (execOp env s op).currentBatchId := by
  cases hop : runOp env s op with
  | error e => rw [execOp_of_error hop]
  | ok s' =>
    rw [execOp_of_ok hop]
    cases op
    case openBatch a =>
      obtain ⟨-, hs'⟩ := openBatch_ok env s a s' (by simpa [runOp] using hop)
      subst hs'
      simp only
      omega
    case closeBatch a b =>
      obtain ⟨-, -, hs'⟩ := closeBatch_ok s a b s' (by simpa [runOp] using hop)
      subst hs'
      exact Nat.le_refl _
    case submitMod a t b x =>
      rcases (submitMod_ok env s a t b x s'
          (by simpa [runOp] using hop)).2.2.2.2.2 with
        ⟨-, hs'⟩ | ⟨-, -, hs'⟩ <;> subst hs'
      · exact Nat.le_refl _
      · simp only; omega
    all_goals
      rw [(runOp_preserves_batches env s _ s' hop
        (by intro _ hc; cases hc) (by intro _ _ hc; cases hc)
        (by intro _ _ _ _ hc; cases hc)).2]

/-- Every call other than `openBatch` preserves at-most-one-active. -/
theorem atMostOneActive_execOp (env : Env) (s : ContractState) (op : Op)
    (h : AtMostOneActive s) (hnop : ∀ a, op ≠ Op.openBatch a) :
    AtMostOneActive (execOp env s op) := by
  cases hop : runOp env s op with
  | error e => rw [execOp_of_error hop]; exact h
  | ok s' =>
    rw [execOp_of_ok hop]
    cases op
    case openBatch a => exact absurd rfl (hnop a)
    case closeBatch a b =>
      obtain ⟨-, -, hs'⟩ := closeBatch_ok s a b s' (by simpa [runOp] using hop)
      subst hs'
      intro i j hi hj
      simp only at hi hj
      by_cases hib : i = b
      · subst hib; rw [updFn_self] at hi; simp at hi
      · by_cases hjb : j = b
        · subst hjb; rw [updFn_self] at hj; simp at hj
        · rw [updFn_ne _ _ _ i hib] at hi
          rw [updFn_ne _ _ _ j hjb] at hj
          exact h i j hi hj
    case submitMod a t b x =>
      obtain ⟨-, -, hact, -, -, hbr⟩ :=
        submitMod_ok env s a t b x s' (by simpa [runOp] using hop)
      rcases hbr with ⟨-, hs'⟩ | ⟨-, -, hs'⟩ <;> subst hs'
      · intro i j hi hj
        simp only at hi hj
        have hi' : (s.batches i).isActive = true := by
          by_cases hib : i = b
          · subst hib; simpa using hi
          · rwa [updFn_ne _ _ _ i hib] at hi
        have hj' : (s.batches j).isActive = true := by
          by_cases hjb : j = b
          · subst hjb; simpa using hj
          · rwa [updFn_ne _ _ _ j hjb] at hj
        exact h i j hi' hj'
      · have key : ∀ k, (updFn (updFn (updFn s.batches b
            { (s.batches b) with
              encryptedAggregate :=
                env.fheAdd (s.batches b).encryptedAggregate x
              submissionCount := (s.batches b).submissionCount + 1 })
            b
            { (s.batches b) with
              encryptedAggregate :=
                env.fheAdd (s.batches b).encryptedAggregate x
              submissionCount := (s.batches b).submissionCount + 1
              isActive := false })
            (s.currentBatchId + 1)
            { isActive := true, submissionCount := 0,
              encryptedAggregate := env.fheAsEuint32 0 } k).isActive = true →
            k = s.currentBatchId + 1 := by
          intro k hk
          by_cases hkc : k = s.currentBatchId + 1
          · exact hkc
          · rw [updFn_ne _ _ _ k hkc] at hk
            by_cases hkb : k = b
            · subst hkb; rw [updFn_self] at hk; simp at hk
            · rw [updFn_ne _ _ _ k hkb, updFn_ne _ _ _ k hkb] at hk
              exact absurd (h k b hk hact) hkb
        intro i j hi hj
        simp only at hi hj
        rw [key i hi, key j hj]
    all_goals
      obtain ⟨hB, -⟩ := runOp_preserves_batches env s _ s' hop
        (by intro _ hc; cases hc) (by intro _ _ hc; cases hc)
        (by intro _ _ _ _ hc; cases hc)
    all_goals intro i j hi hj
    all_goals rw [hB] at hi hj
    all_goals exact h i j hi hj

/-- `ActiveIdsBounded` holds in every reachable state. -/
theorem activeIdsBounded_reachable (env : Env) (s : ContractState)
    (h : Reachable env s) : ActiveIdsBounded s := by
  obtain ⟨d, ops, hs⟩ := h
  subst hs
  have aux : ∀ (ops : List Op) (s0 : ContractState), ActiveIdsBounded s0 →
      ActiveIdsBounded (execOps env s0 ops) := by
    intro ops
    induction ops with
    | nil => intro s0 h0; exact h0
    | cons op rest ih =>
      intro s0 h0
      exact ih (execOp env s0 op) (activeIdsBounded_execOp env s0 op h0)
  exact aux ops _ (activeIdsBounded_initState env d)



/-- C5 counterexample: from the deployment state (batch 1 `Active`), a
single successful owner `openBatch` call yields a reachable state in
which batches 1 and 2 are both `Active`, so at most one active batch is
not an invariant of every operation. -/
theorem two_active_batches_counterexample :
    openBatch concreteEnv (initState concreteEnv 0) 0
      = .ok (execOps concreteEnv (initState concreteEnv 0) [Op.openBatch 0])
    ∧ ((execOps concreteEnv (initState concreteEnv 0)
        [Op.openBatch 0]).batches 1).isActive = true
    ∧ ((execOps concreteEnv (initState concreteEnv 0)
        [Op.openBatch 0]).batches 2).isActive = true
    ∧ ¬ AtMostOneActive
        (execOps concreteEnv (initState concreteEnv 0) [Op.openBatch 0]) := by
  refine ⟨rfl, rfl, rfl, ?_⟩
  intro hone
  have h12 := hone 1 2 rfl rfl
  simp at h12

/-- C5 (amended): in every reachable state the batch ids are disciplined
(current id at least 1, every active batch id between 1 and the current
id, current id never decreasing), and every operation except an owner
`openBatch` — in particular `closeBatch` and the submission
auto-rollover — preserves at-most-one-active; `openBatch` itself
violates it, see the counterexample. -/
theorem batch_id_invariants_amended (env : Env) (s : ContractState)
    (hreach : Reachable env s) :
    (1 ≤ s.currentBatchId
      ∧ ∀ i, (s.batches i).isActive = true → 1 ≤ i ∧ i ≤ s.currentBatchId)
    ∧ (∀ op, s.currentBatchId ≤ (execOp env s op).currentBatchId)
    ∧ (∀ op, (∀ a, op ≠ Op.openBatch a) → AtMostOneActive s →
        AtMostOneActive (execOp env s op)) := by
  refine ⟨activeIdsBounded_reachable env s hreach, ?_, ?_⟩
  · intro op
    exact execOp_cur_mono env s op
  · intro op hnop hone
    exact atMostOneActive_execOp env s op hone hnop

/-- C5 witness: the amended invariants instantiated at the deployment
state. -/
theorem batch_id_invariants_amended_witness :
    1 ≤ (initState concreteEnv 0).currentBatchId
    ∧ (1 ≤ 1 ∧ 1 ≤ (initState concreteEnv 0).currentBatchId)
    ∧ (initState concreteEnv 0).currentBatchId
        ≤ (execOp concreteEnv (initState concreteEnv 0)
            (Op.closeBatch 0 1)).currentBatchId := by
  have h := batch_id_invariants_amended concreteEnv (initState concreteEnv 0)
    ⟨0, [], rfl⟩
  exact ⟨h.1.1, h.1.2 1 rfl, h.2.1 (Op.closeBatch 0 1)⟩

/-- C1 witness: with nine submissions already in batch 1, the tenth
(owner) submission closes batch 1, opens batch 2, and an eleventh
attempt against batch 1 fails with `BatchClosed`. -/
theorem submitMod_tenth_rollover_witness :
    Batch.isActive
      ((execOp concreteEnv c1State (Op.submitMod 0 40 1 5)).batches 1) = false
    ∧ (execOp concreteEnv c1State (Op.submitMod 0 40 1 5)).currentBatchId = 2
    ∧ Batch.isActive
        ((execOp concreteEnv c1State (Op.submitMod 0 40 1 5)).batches 2) = true
    ∧ submitMod concreteEnv (execOp concreteEnv c1State (Op.submitMod 0 40 1 5))
        0 100 1 7 = .error .BatchClosed := by
  have h := submitMod_tenth_rollover concreteEnv c1State 0 40 1 5
    (execOp concreteEnv c1State (Op.submitMod 0 40 1 5)) rfl (by decide)
    (by rfl)
  exact ⟨h.1, h.2.2.1, h.2.2.2.1, h.2.2.2.2.2.2 0 100 7 rfl rfl⟩

end GameModFHE
